import Mathlib

/-!
Verification of the unused-import analysis in `src/main.rs` of
`swc-unused-imports`.

The Rust program parses a TypeScript module with swc and runs three steps:

* `ImportCollector` (main.rs lines 27-55): a visitor that, for each import
  declaration, inserts one entry per specifier into a `HashMap<String,
  ImportSpecifierType>` keyed by the local name (`HashMap::insert`
  overwrites, so a later specifier for the same local name wins).
* `IdentifierCollector` (main.rs lines 70-155): a visitor accumulating a
  `HashSet<String>` of used identifier names.  It overrides
  `visit_ident`, `visit_new_expr`, `visit_import_decl`, `visit_ts_type_ref`,
  `visit_ts_type_ann`, `visit_ts_interface_decl`,
  `visit_ts_expr_with_type_args` and `visit_tagged_tpl`; every override
  that does not explicitly recurse cuts traversal off at that node, while
  unoverridden node kinds use swc's default traversal into all children
  (which is what eventually reaches `visit_ident`).
* `find_unused_imports` (main.rs lines 177-197): runs both collectors over
  the module and returns every binding-map key absent from the usage set.

The embedding below models the fragment of the swc AST that these visitors
inspect, and the collectors as recursive functions whose per-constructor
behaviour mirrors the visitor dispatch: an overridden node kind produces
exactly what the override records (and recurses exactly where the override
recurses); an unoverridden node kind recurses into all of its children.
-/

namespace SwcUnusedImports

/-- swc `ModuleExportName`: the `imported` field of a named import
specifier is either an identifier or a string literal. -/
inductive ModuleExportName where
  | ident (s : String)
  | str (s : String)
deriving DecidableEq

/-- swc `ImportSpecifier`: named (`{ foo }` / `{ foo as bar }`), default
(`import foo`), or star (`import * as foo`).  For the named form,
`imported = none` means no alias was written. -/
inductive ImportSpecifier where
  | Named (localName : String) (imported : Option ModuleExportName)
  | Default (localName : String)
  | Namespace (localName : String)
deriving DecidableEq

/-- `ImportSpecifierType` from main.rs lines 13-17. -/
inductive ImportSpecifierType where
  | Named (s : String)
  | Default (s : String)
  | Namespace (s : String)
deriving DecidableEq

/-- swc `TsEntityName`: a plain identifier or a qualified name
`left.right` whose `right` component is always an identifier. -/
inductive TsEntityName where
  | ident (s : String)
  | qualified (left : TsEntityName) (right : String)
deriving DecidableEq

mutual

/-- Fragment of swc `Expr` inspected by the collectors: identifiers,
member expressions, `new` expressions, tagged templates, calls, literal
leaves and arrow functions. -/
inductive Expr where
  | ident (name : String)
  | member (obj : Expr) (prop : MemberProp)
  | newExpr (callee : Expr) (args : List Expr)
  | taggedTpl (tag : Expr) (tplExprs : List Expr)
  | call (callee : Expr) (args : List Expr)
  | lit
  | arrow (params : List Pat) (body : List Stmt)

/-- swc `MemberProp`: an identifier property or a computed one. -/
inductive MemberProp where
  | ident (s : String)
  | computed (e : Expr)

/-- swc binding pattern fragment: an identifier pattern with an optional
type annotation (swc `BindingIdent`). -/
inductive Pat where
  | ident (name : String) (typeAnn : Option TsType)

/-- Fragment of swc `TsType`: a type reference (with its type arguments),
a union type, and keyword/literal leaves. -/
inductive TsType where
  | typeRef (name : TsEntityName) (typeArgs : List TsType)
  | union (types : List TsType)
  | keyword

/-- swc `VarDeclarator`: a pattern plus an optional initializer. -/
inductive VarDeclarator where
  | mk (name : Pat) (initExpr : Option Expr)

/-- Fragment of swc `Stmt`. -/
inductive Stmt where
  | exprStmt (e : Expr)
  | varDecl (decls : List VarDeclarator)
  | ret (e : Option Expr)

end

/-- swc `TsExprWithTypeArgs` (an interface `extends` entry): an expression
plus type arguments. -/
inductive TsExprWithTypeArgs where
  | mk (expr : Expr) (typeArgs : List TsType)

/-- Fragment of swc `TsTypeElement` (interface body members): property
signatures with an optional type annotation, method signatures and index
signatures. -/
inductive TsTypeElement where
  | propertySignature (key : String) (typeAnn : Option TsType)
  | methodSignature (key : String) (params : List Pat) (retAnn : Option TsType)
  | indexSignature (params : List Pat) (typeAnn : Option TsType)

/-- Fragment of swc `ModuleItem`: import declarations, plain statements,
type alias declarations, interface declarations and function
declarations. -/
inductive ModuleItem where
  | importDecl (src : String) (specifiers : List ImportSpecifier) (typeOnly : Bool)
  | stmt (s : Stmt)
  | typeAlias (name : String) (ty : TsType)
  | interfaceDecl (name : String) (extendsClause : List TsExprWithTypeArgs)
      (body : List TsTypeElement)
  | fnDecl (name : String) (params : List Pat) (body : List Stmt)

/-- A module is its list of items (swc `Module.body`). -/
abbrev Module := List ModuleItem

/-! ## Import collection (`ImportCollector`, main.rs lines 27-55) -/

/-- The binding map built by `ImportCollector`.  The Rust code uses
`HashMap<String, ImportSpecifierType>`; we model it as an association list
in which each key occurs at most once (enforced by `insertImport`). -/
abbrev BindingMap := List (String × ImportSpecifierType)

/-- The string extracted from a `ModuleExportName` by the `match` at
main.rs lines 35-38. -/
def moduleExportNameString : ModuleExportName → String
  | .ident s => s
  | .str s => s

/-- `HashMap::insert`: any previous entry for the key is replaced. -/
def insertImport (m : BindingMap) (k : String) (v : ImportSpecifierType) :
    BindingMap :=
  (List.filter (fun p => p.1 != k) m) ++ [(k, v)]

/-- The per-specifier `match` at main.rs lines 32-52. -/
def processSpecifier (m : BindingMap) : ImportSpecifier → BindingMap
  | .Named localName imported =>
      let importedName :=
        match imported with
        | some n => moduleExportNameString n
        | none => localName
      insertImport m localName (.Named importedName)
  | .Default localName => insertImport m localName (.Default localName)
  | .Namespace localName => insertImport m localName (.Namespace localName)

/-- `ImportCollector::visit_import_decl`: fold over the declaration's
specifier list. -/
def importDeclBindings (m : BindingMap) (specs : List ImportSpecifier) :
    BindingMap :=
  specs.foldl processSpecifier m

/-- One `ImportCollector` traversal step: only an import declaration
touches the map. -/
def importStep (m : BindingMap) : ModuleItem → BindingMap
  | .importDecl _ specs _ => importDeclBindings m specs
  | _ => m

/-- `ImportCollector` run over a whole module.  Import declarations occur
only as top-level module items, so the traversal reduces to a fold over
the item list; no other item kind touches the map. -/
def collectImports (items : Module) : BindingMap :=
  items.foldl importStep []

/-! ## Usage collection (`IdentifierCollector`, main.rs lines 70-155)

The usage `HashSet<String>` is modelled as the list of recorded names;
only membership in it matters to the reconciler. -/

/-- The entity-name `match` inside `visit_ts_type_ref` (main.rs lines
94-108): a plain identifier records its name; a qualified name records
its `left` component only when that component is itself an identifier,
and always records its `right` component. -/
def tsTypeRefUsages : TsEntityName → List String
  | .ident s => [s]
  | .qualified left right =>
      (match left with
       | .ident l => [l]
       | _ => []) ++ [right]

/-- `visit_ts_type_ann` (main.rs lines 111-118): only an annotation whose
wrapped type is a type reference is handled; every other shape records
nothing and is not recursed into. -/
def typeAnnUsages : TsType → List String
  | .typeRef n _ => tsTypeRefUsages n
  | _ => []

mutual

/-- Usages recorded in an expression subtree.  `ident` is the
`visit_ident` catch-all; `newExpr` and `taggedTpl` are the overrides at
main.rs lines 76-84 and 144-155 (no recursion into children); `member`,
`call`, `lit` and `arrow` have no override, so swc's default traversal
recurses into all their children. -/
def exprUsages : Expr → List String
  | .ident s => [s]
  | .member obj prop => exprUsages obj ++ memberPropUsages prop
  | .newExpr callee _ =>
      match callee with
      | .ident s => [s]
      | _ => []
  | .taggedTpl tag _ =>
      match tag with
      | .member (.ident obj) _ => [obj]
      | .ident s => [s]
      | _ => []
  | .call callee args => exprUsages callee ++ exprListUsages args
  | .lit => []
  | .arrow params body => patListUsages params ++ stmtListUsages body

def memberPropUsages : MemberProp → List String
  | .ident s => [s]
  | .computed e => exprUsages e

def exprListUsages : List Expr → List String
  | [] => []
  | e :: es => exprUsages e ++ exprListUsages es

/-- Default traversal of a `BindingIdent`: the identifier itself reaches
`visit_ident`, and its annotation reaches the `visit_ts_type_ann`
override. -/
def patUsages : Pat → List String
  | .ident s none => [s]
  | .ident s (some t) => s :: typeAnnUsages t

def patListUsages : List Pat → List String
  | [] => []
  | p :: ps => patUsages p ++ patListUsages ps

/-- Default traversal of a `TsType` reached outside a `TsTypeAnn` (for
example the right-hand side of a type alias): a type reference hits the
`visit_ts_type_ref` override (which does not recurse into its type
arguments), while union members are each traversed. -/
def typeUsages : TsType → List String
  | .typeRef n _ => tsTypeRefUsages n
  | .union ts => typeListUsages ts
  | .keyword => []

def typeListUsages : List TsType → List String
  | [] => []
  | t :: ts => typeUsages t ++ typeListUsages ts

def declaratorUsages : VarDeclarator → List String
  | .mk p none => patUsages p
  | .mk p (some e) => patUsages p ++ exprUsages e

def declaratorListUsages : List VarDeclarator → List String
  | [] => []
  | d :: ds => declaratorUsages d ++ declaratorListUsages ds

def stmtUsages : Stmt → List String
  | .exprStmt e => exprUsages e
  | .varDecl ds => declaratorListUsages ds
  | .ret none => []
  | .ret (some e) => exprUsages e

def stmtListUsages : List Stmt → List String
  | [] => []
  | s :: ss => stmtUsages s ++ stmtListUsages ss

end

/-- `visit_ts_expr_with_type_args` (main.rs lines 138-142): records the
expression only when it is a plain identifier; type arguments are never
visited. -/
def exprWithTypeArgsUsages : TsExprWithTypeArgs → List String
  | .mk (.ident s) _ => [s]
  | .mk _ _ => []

/-- The member `match` inside `visit_ts_interface_decl` (main.rs lines
126-135): a property signature with an annotation goes through the
`visit_ts_type_ann` override; every other member kind records nothing. -/
def tsTypeElementUsages : TsTypeElement → List String
  | .propertySignature _ (some t) => typeAnnUsages t
  | .propertySignature _ none => []
  | .methodSignature _ _ _ => []
  | .indexSignature _ _ => []

/-- Usages recorded for one module item.  `importDecl` is the
`visit_import_decl` override at main.rs lines 86-91, which records
nothing whatever the `type_only` flag says; `interfaceDecl` is the
override at lines 120-136; `typeAlias` and `fnDecl` have no override, so
default traversal records their own name identifiers and recurses. -/
def itemUsages : ModuleItem → List String
  | .importDecl _ _ _ => []
  | .stmt s => stmtUsages s
  | .typeAlias name ty => name :: typeUsages ty
  | .interfaceDecl _ extendsClause body =>
      (extendsClause.map exprWithTypeArgsUsages).flatten ++
        (body.map tsTypeElementUsages).flatten
  | .fnDecl name params body =>
      name :: (patListUsages params ++ stmtListUsages body)

/-- `IdentifierCollector` run over a whole module. -/
def collectUsages (items : Module) : List String :=
  (items.map itemUsages).flatten

/-! ## Reconciliation (`find_unused_imports`, main.rs lines 177-197) -/

/-- The loop at main.rs lines 189-194: every binding-map key not
contained in the usage set is pushed onto the result. -/
def reconcile (imports : BindingMap) (used : List String) : List String :=
  (List.filter (fun p => !(used.contains p.1)) imports).map Prod.fst

/-- `find_unused_imports`: run both collectors, then reconcile. -/
def find_unused_imports (m : Module) : List String :=
  reconcile (collectImports m) (collectUsages m)

/-! ## Shape discriminators used to state the claims -/

/-- Whether a module item is an import declaration. -/
def isImportItem : ModuleItem → Bool
  | .importDecl _ _ _ => true
  | _ => false

/-- Whether an expression is a plain identifier. -/
def isIdentExpr : Expr → Bool
  | .ident _ => true
  | _ => false

/-- Whether a type is a type reference. -/
def isTypeRefType : TsType → Bool
  | .typeRef _ _ => true
  | _ => false

/-! ## Concrete scenario modules from the specification -/

/-- Scenario 4: `import \x7b Theme \x7d from 'm'; type P = Partial<Theme>;`. -/
def themeModule : Module :=
  [.importDecl "m" [.Named "Theme" none] false,
   .typeAlias "P" (.typeRef (.ident "Partial") [.typeRef (.ident "Theme") []])]

/-- Scenario 2: `import \x7b A \x7d from 'm'; import \x7b B \x7d from 'n';`. -/
def twoImportsModule : Module :=
  [.importDecl "m" [.Named "A" none] false,
   .importDecl "n" [.Named "B" none] false]

/-- Scenario 3: `import * as NS from 'm'; type T = NS.Thing;`. -/
def namespaceTypeModule : Module :=
  [.importDecl "m" [.Namespace "NS"] false,
   .typeAlias "T" (.typeRef (.qualified (.ident "NS") "Thing") [])]

/-- Scenario 5: `import \x7b styled \x7d from 'm'; const D = styled.div\x60...\x60;`. -/
def styledModule : Module :=
  [.importDecl "m" [.Named "styled" none] false,
   .stmt (.varDecl [.mk (.ident "D" none)
     (some (.taggedTpl (.member (.ident "styled") (.ident "div")) []))])]

/-- An import whose local name also occurs as a declared variable name:
`import \x7b A \x7d from 'm'; var A;`. -/
def declaredNameModule : Module :=
  [.importDecl "m" [.Named "A" none] false,
   .stmt (.varDecl [.mk (.ident "A" none) none])]

/-- An import referenced only inside the arguments of a `new`
expression: `import \x7b A \x7d from 'm'; new f(A);`. -/
def newArgModule : Module :=
  [.importDecl "m" [.Named "A" none] false,
   .stmt (.exprStmt (.newExpr (.ident "f") [.ident "A"]))]

/-- An import referenced only inside a tagged-template interpolation:
`import \x7b A \x7d from 'm'; const x = f\x60...A...\x60;`. -/
def tplArgModule : Module :=
  [.importDecl "m" [.Named "A" none] false,
   .stmt (.varDecl [.mk (.ident "x" none)
     (some (.taggedTpl (.ident "f") [.ident "A"]))])]

/-! ## Helper lemmas -/

theorem not_contains_iff (l : List String) (a : String) :
    (!(l.contains a)) = true ↔ a ∉ l := by
  simp [List.contains, List.elem_iff]

/-- Membership in the reconciler output: a name is reported exactly when
it is a binding-map key that the usage set misses. -/
theorem mem_reconcile (imports : BindingMap) (used : List String) (s : String) :
    s ∈ reconcile imports used ↔ s ∈ imports.map Prod.fst ∧ s ∉ used := by
  simp only [reconcile, List.mem_map, List.mem_filter]
  constructor
  · rintro ⟨p, ⟨hp, hc⟩, rfl⟩
    exact ⟨⟨p, hp, rfl⟩, (not_contains_iff used p.1).mp hc⟩
  · rintro ⟨⟨p, hp, rfl⟩, hn⟩
    exact ⟨p, ⟨hp, (not_contains_iff used p.1).mpr hn⟩, rfl⟩

/-- An empty usage set lets every binding through. -/
theorem reconcile_nil_used (imports : BindingMap) :
    reconcile imports [] = imports.map Prod.fst := by
  induction imports with
  | nil => rfl
  | cons p l ih =>
      simp only [reconcile, List.filter_cons] at ih ⊢
      rw [if_pos (show (! List.contains [] p.1) = true by rfl), List.map_cons, ih,
        List.map_cons]

/-- `HashMap::insert` makes the inserted value the one found under the
inserted key. -/
theorem lookup_insertImport (m : BindingMap) (k : String)
    (v : ImportSpecifierType) : (insertImport m k v).lookup k = some v := by
  induction m with
  | nil => simp [insertImport, List.lookup]
  | cons p l ih =>
      by_cases h : p.1 = k
      · simpa [insertImport, List.filter_cons, h] using ih
      · simp only [insertImport, List.filter_cons] at ih ⊢
        rw [if_pos (by simpa using h)]
        simpa [List.lookup, show (k == p.1) = false by simpa using (Ne.symm h)]
          using ih

/-- `HashMap::insert` leaves every other key alone. -/
theorem lookup_insertImport_ne (m : BindingMap) (k k' : String)
    (v : ImportSpecifierType) (h : k' ≠ k) :
    (insertImport m k v).lookup k' = m.lookup k' := by
  induction m with
  | nil => simp [insertImport, List.lookup, show (k' == k) = false by simpa using h]
  | cons p l ih =>
      by_cases hp : p.1 = k
      · subst hp
        simp only [insertImport, List.filter_cons] at ih ⊢
        rw [if_neg (by simp)]
        simpa [List.lookup, show (k' == p.1) = false by simpa using h] using ih
      · simp only [insertImport, List.filter_cons] at ih ⊢
        rw [if_pos (by simpa using hp)]
        by_cases hk : k' = p.1
        · simp [List.lookup, hk]
        · simpa [List.lookup, show (k' == p.1) = false by simpa using hk] using ih

/-- Inserting never duplicates a key. -/
theorem keys_insertImport_nodup (m : BindingMap) (k : String)
    (v : ImportSpecifierType) (h : (m.map Prod.fst).Nodup) :
    ((insertImport m k v).map Prod.fst).Nodup := by
  unfold insertImport
  rw [List.map_append]
  refine List.Nodup.append ?_ (List.nodup_singleton k) ?_
  · exact List.Nodup.sublist (List.Sublist.map Prod.fst (List.filter_sublist m)) h
  · intro a ha hk
    have hak : a = k := by simpa using hk
    subst hak
    obtain ⟨p, hp, rfl⟩ := List.mem_map.mp ha
    have := (List.mem_filter.mp hp).2
    simp at this

/-- Each specifier processes into one `insertImport`, so key uniqueness
is preserved. -/
theorem keys_processSpecifier_nodup (m : BindingMap) (spec : ImportSpecifier)
    (h : (m.map Prod.fst).Nodup) :
    ((processSpecifier m spec).map Prod.fst).Nodup := by
  cases spec <;> exact keys_insertImport_nodup _ _ _ h

theorem keys_importDeclBindings_nodup (specs : List ImportSpecifier) :
    ∀ m : BindingMap, (m.map Prod.fst).Nodup →
      ((importDeclBindings m specs).map Prod.fst).Nodup := by
  induction specs with
  | nil => exact fun m h => h
  | cons spec rest ih =>
      intro m h
      exact ih _ (keys_processSpecifier_nodup m spec h)

theorem keys_importStep_nodup (m : BindingMap) (it : ModuleItem)
    (h : (m.map Prod.fst).Nodup) : ((importStep m it).map Prod.fst).Nodup := by
  cases it with
  | importDecl src specs b => exact keys_importDeclBindings_nodup specs m h
  | stmt s => exact h
  | typeAlias n t => exact h
  | interfaceDecl n e b => exact h
  | fnDecl n p b => exact h

theorem keys_foldl_importStep_nodup (items : Module) :
    ∀ m : BindingMap, (m.map Prod.fst).Nodup →
      ((items.foldl importStep m).map Prod.fst).Nodup := by
  induction items with
  | nil => exact fun m h => h
  | cons it rest ih =>
      intro m h
      exact ih _ (keys_importStep_nodup m it h)

/-- The binding map never holds two entries for one local name. -/
theorem keys_collectImports_nodup (items : Module) :
    ((collectImports items).map Prod.fst).Nodup :=
  keys_foldl_importStep_nodup items [] List.nodup_nil

/-- Appending an import declaration to a module post-composes the
binding fold with that declaration's specifiers. -/
theorem collectImports_append_import (items : Module) (src : String)
    (specs : List ImportSpecifier) (b : Bool) :
    collectImports (items ++ [.importDecl src specs b]) =
      importDeclBindings (collectImports items) specs := by
  unfold collectImports
  rw [List.foldl_append]
  rfl

/-- `visit_ts_expr_with_type_args` records a name exactly when the
entry's expression is that plain identifier (type arguments are
irrelevant). -/
theorem mem_exprWithTypeArgsUsages (e : TsExprWithTypeArgs) (s : String) :
    s ∈ exprWithTypeArgsUsages e ↔
      ∃ targs, e = TsExprWithTypeArgs.mk (.ident s) targs := by
  obtain ⟨expr, targs⟩ := e
  cases expr <;>
    simp [exprWithTypeArgsUsages, TsExprWithTypeArgs.mk.injEq, eq_comm]

/-- An interface member records a name exactly when it is a property
signature whose annotation's type-annotation rule yields that name. -/
theorem mem_tsTypeElementUsages (el : TsTypeElement) (s : String) :
    s ∈ tsTypeElementUsages el ↔
      ∃ key t, el = TsTypeElement.propertySignature key (some t) ∧
        s ∈ typeAnnUsages t := by
  cases el with
  | propertySignature key ann =>
      cases ann with
      | none => simp [tsTypeElementUsages]
      | some t =>
          simp only [tsTypeElementUsages, TsTypeElement.propertySignature.injEq]
          constructor
          · intro h
            exact ⟨key, t, ⟨rfl, rfl⟩, h⟩
          · rintro ⟨key2, t2, ⟨rfl, h2⟩, hs⟩
            cases h2
            exact hs
  | methodSignature key params retAnn => simp [tsTypeElementUsages]
  | indexSignature params ann => simp [tsTypeElementUsages]

/-- Names recorded by the reconciler's usage input are never reported. -/
theorem mem_collectUsages_not_unused (items : Module) (s : String)
    (h : s ∈ collectUsages items) : s ∉ find_unused_imports items := by
  intro hmem
  exact ((mem_reconcile _ _ _).mp hmem).2 h

/-- Usages of only-import modules are empty (the `visit_import_decl`
override records nothing). -/
theorem collectUsages_only_imports (items : Module)
    (h : ∀ it ∈ items, isImportItem it = true) : collectUsages items = [] := by
  induction items with
  | nil => rfl
  | cons it rest ih =>
      have h1 : isImportItem it = true := h it (by simp)
      have h2 : collectUsages rest = [] := ih fun x hx => h x (by simp [hx])
      cases it <;> simp [isImportItem] at h1 ⊢
      simpa [collectUsages, itemUsages] using h2

/-! ## Claim theorems -/

/-- C1: the reconciler includes a bound local name in the unused report
iff the usage set does not contain that exact string, under
case-sensitive exact-string equality; it is total over any pair of
collections, with empty bindings yielding an empty report and an empty
usage set yielding every binding in the report. -/
theorem C1_reconciler_exact_membership :
    (∀ (bindings : BindingMap) (usages : List String) (s : String),
        s ∈ reconcile bindings usages ↔
          s ∈ bindings.map Prod.fst ∧ s ∉ usages)
    ∧ (∀ usages : List String, reconcile [] usages = [])
    ∧ (∀ bindings : BindingMap, reconcile bindings [] = bindings.map Prod.fst)
    ∧ reconcile [("a", .Named "a")] ["A"] = ["a"] :=
  ⟨mem_reconcile, fun _ => rfl, reconcile_nil_used, by decide⟩

/-- C2: type arguments of a type reference are not decomposed, and a
type annotation wrapping a non-reference shape records nothing; on
`import \x7b Theme \x7d from 'm'; type P = Partial<Theme>;` the name
`Theme` is reported unused. -/
theorem C2_generic_type_args_not_decomposed :
    (∀ (n : TsEntityName) (args : List TsType),
        typeUsages (.typeRef n args) = typeUsages (.typeRef n []))
    ∧ (∀ t : TsType, isTypeRefType t = false → typeAnnUsages t = [])
    ∧ find_unused_imports themeModule = ["Theme"] := by
  refine ⟨fun n args => rfl, ?_, by decide⟩
  intro t h
  cases t with
  | typeRef n a => simp [isTypeRefType] at h
  | union ts => rfl
  | keyword => rfl

theorem C2_generic_type_args_witness :
    isTypeRefType (TsType.union []) = false ∧
      typeAnnUsages (TsType.union []) = [] :=
  ⟨rfl, C2_generic_type_args_not_decomposed.2.1 (TsType.union []) rfl⟩

/-- C3: import declarations contribute no usages, whatever the
`type_only` flag says, so a module consisting only of import
declarations reports every bound name unused. -/
theorem C3_import_decls_record_nothing :
    (∀ (src : String) (specs : List ImportSpecifier),
        itemUsages (.importDecl src specs true) = [] ∧
        itemUsages (.importDecl src specs false) = [])
    ∧ (∀ items : Module, (∀ it ∈ items, isImportItem it = true) →
        find_unused_imports items = (collectImports items).map Prod.fst) := by
  refine ⟨fun src specs => ⟨rfl, rfl⟩, ?_⟩
  intro items h
  rw [find_unused_imports, collectUsages_only_imports items h, reconcile_nil_used]

theorem C3_import_decls_witness :
    (∀ it ∈ twoImportsModule, isImportItem it = true) ∧
      find_unused_imports twoImportsModule =
        (collectImports twoImportsModule).map Prod.fst ∧
      find_unused_imports twoImportsModule = ["A", "B"] :=
  ⟨by decide, C3_import_decls_record_nothing.2 twoImportsModule (by decide),
    by decide⟩

/-- C4: a qualified type reference `Namespace.Member` records both the
left-most namespace identifier and the rightmost member name, so
`import * as NS from 'm'; type T = NS.Thing;` reports nothing unused. -/
theorem C4_qualified_type_ref_records_both :
    (∀ (ns mem : String) (args : List TsType),
        typeUsages (.typeRef (.qualified (.ident ns) mem) args) = [ns, mem])
    ∧ find_unused_imports namespaceTypeModule = [] :=
  ⟨fun ns mem args => rfl, by decide⟩

/-- C5: a tagged template whose tag is a member expression with a plain
identifier object records that object only, and a plain-identifier tag
records itself; the `styled.div` scenario reports nothing unused. -/
theorem C5_tagged_template_tag_rules :
    (∀ (obj : String) (prop : MemberProp) (tplExprs : List Expr),
        exprUsages (.taggedTpl (.member (.ident obj) prop) tplExprs) = [obj])
    ∧ (∀ (s : String) (tplExprs : List Expr),
        exprUsages (.taggedTpl (.ident s) tplExprs) = [s])
    ∧ find_unused_imports styledModule = [] :=
  ⟨fun obj prop tplExprs => rfl, fun s tplExprs => rfl, by decide⟩

/-- C6: the binding map sends each local name to exactly one entry whose
shape is decided by the last specifier declaring it - Named(original)
for an aliased named specifier, Named(local) for a plain named
specifier, Default(local) for a default specifier, Namespace(local) for
a namespace specifier - and an earlier entry under the same local name
is silently overwritten. -/
theorem C6_binding_map_last_wins :
    (∀ (items : Module) (src localName orig : String) (b : Bool),
        (collectImports (items ++
            [.importDecl src [.Named localName (some (.ident orig))] b])).lookup
          localName = some (.Named orig))
    ∧ (∀ (items : Module) (src localName : String) (b : Bool),
        (collectImports (items ++
            [.importDecl src [.Named localName none] b])).lookup localName =
          some (.Named localName))
    ∧ (∀ (items : Module) (src localName : String) (b : Bool),
        (collectImports (items ++
            [.importDecl src [.Default localName] b])).lookup localName =
          some (.Default localName))
    ∧ (∀ (items : Module) (src localName : String) (b : Bool),
        (collectImports (items ++
            [.importDecl src [.Namespace localName] b])).lookup localName =
          some (.Namespace localName))
    ∧ (∀ items : Module, ((collectImports items).map Prod.fst).Nodup) := by
  refine ⟨?_, ?_, ?_, ?_, keys_collectImports_nodup⟩
  · intro items src localName orig b
    rw [collectImports_append_import]
    exact lookup_insertImport _ _ _
  · intro items src localName b
    rw [collectImports_append_import]
    exact lookup_insertImport _ _ _
  · intro items src localName b
    rw [collectImports_append_import]
    exact lookup_insertImport _ _ _
  · intro items src localName b
    rw [collectImports_append_import]
    exact lookup_insertImport _ _ _

/-- C7: an interface declaration records exactly the base identifier of
each `extends` entry together with the type-annotation-rule names of each
property-signature member that has a declared type annotation; members
of other kinds contribute no usages. -/
theorem C7_interface_decl_usages :
    ∀ (name : String) (extendsClause : List TsExprWithTypeArgs)
      (body : List TsTypeElement) (s : String),
      s ∈ itemUsages (.interfaceDecl name extendsClause body) ↔
        (∃ targs, TsExprWithTypeArgs.mk (.ident s) targs ∈ extendsClause) ∨
        (∃ key t, TsTypeElement.propertySignature key (some t) ∈ body ∧
          s ∈ typeAnnUsages t) := by
  intro name extendsClause body s
  simp only [itemUsages, List.mem_append, List.mem_flatten, List.mem_map]
  constructor
  · rintro (⟨l, ⟨e, he, rfl⟩, hs⟩ | ⟨l, ⟨el, hel, rfl⟩, hs⟩)
    · obtain ⟨targs, rfl⟩ := (mem_exprWithTypeArgsUsages e s).mp hs
      exact Or.inl ⟨targs, he⟩
    · obtain ⟨key, t, rfl, hst⟩ := (mem_tsTypeElementUsages el s).mp hs
      exact Or.inr ⟨key, t, hel, hst⟩
  · rintro (⟨targs, hmem⟩ | ⟨key, t, hmem, hst⟩)
    · exact Or.inl ⟨_, ⟨_, hmem, rfl⟩,
        (mem_exprWithTypeArgsUsages _ s).mpr ⟨targs, rfl⟩⟩
    · exact Or.inr ⟨_, ⟨_, hmem, rfl⟩,
        (mem_tsTypeElementUsages _ s).mpr ⟨key, t, rfl, hst⟩⟩

/-- C8: the catch-all `visit_ident` records every identifier reached by
the default traversal, including pure declaration and binding positions
(variable names, function names, type-alias names, parameter names), so
an import whose local name coincides with any recorded name is never
reported unused. -/
theorem C8_catch_all_ident_visitor :
    (∀ s : String, exprUsages (.ident s) = [s])
    ∧ (∀ (s : String) (ann : Option TsType), s ∈ patUsages (.ident s ann))
    ∧ (∀ (name : String) (params : List Pat) (body : List Stmt),
        name ∈ itemUsages (.fnDecl name params body))
    ∧ (∀ (name : String) (ty : TsType), name ∈ itemUsages (.typeAlias name ty))
    ∧ (∀ (items : Module) (s : String),
        s ∈ collectUsages items → s ∉ find_unused_imports items) := by
  refine ⟨fun s => rfl, ?_, ?_, ?_, mem_collectUsages_not_unused⟩
  · intro s ann
    cases ann <;> simp [patUsages]
  · intro name params body
    simp [itemUsages]
  · intro name ty
    simp [itemUsages]

theorem C8_catch_all_witness :
    "A" ∈ collectUsages declaredNameModule ∧
      "A" ∉ find_unused_imports declaredNameModule :=
  ⟨by decide,
    C8_catch_all_ident_visitor.2.2.2.2 declaredNameModule "A" (by decide)⟩

/-- C9: a `new` expression contributes only its plain-identifier callee;
its arguments (and any non-identifier callee) are never traversed, so
an import referenced only inside `new` arguments is reported unused. -/
theorem C9_new_expr_no_recursion :
    (∀ (callee : Expr) (args : List Expr),
        exprUsages (.newExpr callee args) = exprUsages (.newExpr callee []))
    ∧ (∀ (s : String) (args : List Expr),
        exprUsages (.newExpr (.ident s) args) = [s])
    ∧ (∀ (callee : Expr) (args : List Expr), isIdentExpr callee = false →
        exprUsages (.newExpr callee args) = [])
    ∧ find_unused_imports newArgModule = ["A"] := by
  refine ⟨?_, fun s args => rfl, ?_, by decide⟩
  · intro callee args
    cases callee <;> rfl
  · intro callee args h
    cases callee <;> first | rfl | simp [isIdentExpr] at h

theorem C9_new_expr_witness :
    isIdentExpr (Expr.member (.ident "ns") (.ident "Cls")) = false ∧
      exprUsages (.newExpr (.member (.ident "ns") (.ident "Cls"))
        [.ident "A"]) = [] :=
  ⟨rfl, C9_new_expr_no_recursion.2.2.1
    (.member (.ident "ns") (.ident "Cls")) [.ident "A"] rfl⟩

/-- C10: a tagged template contributes only through its tag's recognized
shapes; its interpolation expressions, and anything below a tag of any
other shape, are never traversed, so an import referenced only inside an
interpolation is reported unused. -/
theorem C10_tagged_tpl_no_recursion :
    (∀ (tag : Expr) (tplExprs : List Expr),
        exprUsages (.taggedTpl tag tplExprs) = exprUsages (.taggedTpl tag []))
    ∧ (∀ (obj : Expr) (prop : MemberProp) (tplExprs : List Expr),
        isIdentExpr obj = false →
        exprUsages (.taggedTpl (.member obj prop) tplExprs) = [])
    ∧ (∀ (callee : Expr) (args tplExprs : List Expr),
        exprUsages (.taggedTpl (.call callee args) tplExprs) = [])
    ∧ find_unused_imports tplArgModule = ["A"] := by
  refine ⟨?_, ?_, fun c a t => rfl, by decide⟩
  · intro tag tplExprs
    cases tag with
    | member obj prop => cases obj <;> rfl
    | _ => rfl
  · intro obj prop tplExprs h
    cases obj <;> first | rfl | simp [isIdentExpr] at h

theorem C10_tagged_tpl_witness :
    isIdentExpr (Expr.call (.ident "f") []) = false ∧
      exprUsages (.taggedTpl (.member (.call (.ident "f") []) (.ident "p"))
        [.ident "A"]) = [] :=
  ⟨rfl, C10_tagged_tpl_no_recursion.2.1
    (.call (.ident "f") []) (.ident "p") [.ident "A"] rfl⟩

end SwcUnusedImports

